import Mathlib

/-!
Verification of the temporal feature/label computation engine of the
SwiftE-commerce predictor (`predictor/feature_engineer.py`,
`predictor/file_export_features.py`, `predictor/export_features.py`,
`predictor/data_loader.py`, `predictor/config.py`).

Dates are normalized to daily granularity in the source (`dt.normalize()`),
so a calendar date is modelled as an `Int` day number; day number 0 is taken
to fall on a Monday, so `weekday d = d % 7` mirrors Python's
`datetime.weekday()` up to choice of epoch.  Monetary and averaged values
are modelled as `ℚ` (the source computes them in floating point; every claim
we settle about them is exact arithmetic on small integers, where float and
rational arithmetic agree).
-/

namespace Predictor

/-- A pre-aggregated per-(product, store, date) statistics row
(`productStats` rows of `file_export_features.py`). -/
structure StatRow where
  productId : String
  storeId : String
  date : Int
  views : Int
  purchases : Int
  addToCarts : Int
  revenue : ℚ
  deriving Repr, DecidableEq

/-- An inventory update event (`inventory` rows: `variantId`, `updatedAt`,
`quantity`). -/
structure InvUpdate where
  variantId : String
  updatedAt : Int
  quantity : Int
  deriving Repr, DecidableEq

/-- A product review event (`reviews` rows: `productId`, `createdAt`,
`rating`). -/
structure Review where
  productId : String
  createdAt : Int
  rating : Int
  deriving Repr, DecidableEq

/-- A product variant with its price (`variants` rows: `id`, `productId`,
`price`). -/
structure Variant where
  id : String
  productId : String
  price : ℚ
  deriving Repr, DecidableEq

/-- `FeatureConfig` of `predictor/config.py`: rolling window sizes and the
lead-in padding.  The dataclass performs no validation of these fields
(`__post_init__` only fills in the feature column list). -/
structure FeatureConfig where
  window7d : Nat := 7
  window14d : Nat := 14
  window30d : Nat := 30
  paddingDays : Int := 29
  deriving Repr, DecidableEq

/-- `pd.date_range(start=a, end=b, freq='D')`: the contiguous daily axis
from `a` through `b` inclusive; empty when `b < a`. -/
def calendarDays (a b : Int) : List Int :=
  (List.range (b + 1 - a).toNat).map (fun i : Nat => a + (i : Int))

/-- `getDateRangeWithPadding` of `predictor/data_loader.py` (lines 220-230):
returns `(start - paddingDays, end)` unconditionally; the function contains
no range validation of any kind. -/
def getDateRangeWithPadding (startDate endDate paddingDays : Int) : Int × Int :=
  (startDate - paddingDays, endDate)

/-- `datetime.weekday()` under the day-number model (day 0 = Monday). -/
def weekdayOf (d : Int) : Int := d % 7

/-- `FeatureEngineer.computeLabel` (`feature_engineer.py` lines 216-240):
forward purchase sum over `[D+1, D+14]` for the given product, and the
binary stockout label `1` iff that sum strictly exceeds the point-in-time
inventory.  Returns `(futureSales14d, stockout14d)`. -/
def computeLabel (productId : String) (snapshotDate : Int) (inventoryQty : Int)
    (productStats : List StatRow) : Int × Int :=
  let futureStart := snapshotDate + 1
  let futureEnd := snapshotDate + 14
  let futureSales :=
    ((productStats.filter (fun r =>
        r.productId = productId ∧ futureStart ≤ r.date ∧ r.date ≤ futureEnd)).map
      (fun r => r.purchases)).sum
  (futureSales, if inventoryQty < futureSales then 1 else 0)

/-- The trailing-window sum of pandas
`Series.rolling(window=W, min_periods=1).sum()` at position `k`: the sum of
the last `min (k+1) W` entries ending at and including position `k`
(`k + 1 - W` truncates at `0` in `Nat`). -/
def trailingSum (xs : List Int) (W k : Nat) : Int :=
  ((xs.take (k + 1)).drop (k + 1 - W)).sum

/-- `FeatureEngineer.computeRollingWindows` for a single measure column
(`feature_engineer.py` lines 121-131): the full rolling-sum series. -/
def rollingSum (xs : List Int) (W : Nat) : List Int :=
  (List.range xs.length).map (fun k => trailingSum xs W k)

/-- The calendar-range builder as the specification words it (§4.1): fails
with `InvalidRangeError` when `end < start` or `padding < 0`, otherwise
returns the padded range.  Kept solely to compare the source's
`getDateRangeWithPadding` (which performs no validation) against the
specified behavior. -/
def specGetDateRangeWithPadding (startDate endDate paddingDays : Int) :
    Option (Int × Int) :=
  if endDate < startDate ∨ paddingDays < 0 then none
  else some (startDate - paddingDays, endDate)

/-- Timestamp order on inventory updates (`sort_values('updatedAt')`). -/
def tsLe (a b : InvUpdate) : Prop := a.updatedAt ≤ b.updatedAt

instance : DecidableRel tsLe := fun a b => Int.decLe a.updatedAt b.updatedAt

instance : IsTotal InvUpdate tsLe := ⟨fun a b => Int.le_total a.updatedAt b.updatedAt⟩

instance : IsTrans InvUpdate tsLe := ⟨fun _ _ _ h1 h2 => le_trans h1 h2⟩

/-- `sort_values('updatedAt')` (a stable sort, as in pandas). -/
def sortByTs (l : List InvUpdate) : List InvUpdate := List.insertionSort tsLe l

/-- Helper for `dedupByTs`: drop rows whose timestamp was already seen. -/
def dedupByTsAux (seen : List Int) : List InvUpdate → List InvUpdate
  | [] => []
  | u :: rest =>
      if u.updatedAt ∈ seen then dedupByTsAux seen rest
      else u :: dedupByTsAux (u.updatedAt :: seen) rest

/-- `drop_duplicates('updatedAt')` with pandas' default `keep='first'`:
keeps the first row of every distinct timestamp. -/
def dedupByTs (l : List InvUpdate) : List InvUpdate := dedupByTsAux [] l

/-- `pd.merge_asof(..., direction='backward')` against one query timestamp
`d` over a timestamp-sorted update list: the value of the last row with
timestamp at or before `d`, and (`fillna(0)`) `0` when there is none. -/
def asofQty (l : List InvUpdate) (d : Int) : Int :=
  (((l.filter (fun u => u.updatedAt ≤ d)).getLast?).map
    (fun u => u.quantity)).getD 0

/-- Helper for `uniqueFirst`: drop values already seen. -/
def uniqueFirstAux (seen : List String) : List String → List String
  | [] => []
  | x :: rest =>
      if x ∈ seen then uniqueFirstAux seen rest
      else x :: uniqueFirstAux (x :: seen) rest

/-- `pd.Series.unique()`: distinct values in order of first appearance. -/
def uniqueFirst (l : List String) : List String := uniqueFirstAux [] l

/-- The per-variant as-of value inside
`FeatureEngineer.computeInventoryByDate`: restrict to the variant's rows,
sort by timestamp, drop duplicate timestamps (keep first) and read off the
backward as-of value.  (The source sorts the whole filtered frame before
slicing out the variant and re-sorts the slice; for one variant this equals
sorting the slice.) -/
def variantAsof (updates : List InvUpdate) (v : String) (d : Int) : Int :=
  asofQty (dedupByTs (sortByTs (updates.filter (fun u => u.variantId = v)))) d

/-- `FeatureEngineer.computeInventoryByDate` (`feature_engineer.py` lines
45-89): filter updates to the requested variants, then for every calendar
date sum the per-variant backward as-of quantities over the distinct
variants present in the filtered frame.  The source's early returns for an
empty frame or variant list coincide with the general formula (an empty sum
is 0). -/
def computeInventoryByDate (invDf : List InvUpdate) (variantIds : List String)
    (dateIndex : List Int) : List Int :=
  let invSub := invDf.filter (fun u => u.variantId ∈ variantIds)
  let vs := uniqueFirst ((sortByTs invSub).map (fun u => u.variantId))
  dateIndex.map (fun d => (vs.map (fun v => variantAsof invSub v d)).sum)

/-- The maximum of the `updatedAt` column (`inventory['updatedAt'].max()`),
`none` for an empty frame. -/
def maxTs : List InvUpdate → Option Int
  | [] => none
  | u :: rest =>
      match maxTs rest with
      | none => some u.updatedAt
      | some t => some (max u.updatedAt t)

/-- The `daysSinceRestock` feature (`feature_engineer.py` lines 174-178,
`file_export_features.py` lines 325-332): difference from the recorded
last-restock date when that date is at or before the snapshot, sentinel 365
otherwise. -/
def daysSinceRestock (lastRestockDate : Option Int) (snapshotDate : Int) : Int :=
  match lastRestockDate with
  | some t => if t ≤ snapshotDate then snapshotDate - t else 365
  | none => 365

/-- `daysSinceRestock` as computed by the exporters: the recorded
last-restock date is the global maximum update timestamp of the product's
inventory rows — including updates after the snapshot date. -/
def daysSinceRestockOf (inventory : List InvUpdate) (snapshotDate : Int) : Int :=
  daysSinceRestock (maxTs inventory) snapshotDate

/-- `FeatureEngineer.computeReviewsCumulative` (`feature_engineer.py` lines
91-119): filter to the product's reviews, group by calendar date, reindex to
the date axis (`reindex` keeps only dates of the axis and zero-fills the
rest), take cumulative count/sum over axis positions, and average with the
`replace(0, nan)`/`fillna(0.0)` pair mapping a zero count to mean `0.0`.
Returns, per axis position, the pair (cumulative count, cumulative mean). -/
def reviewsCumulAt (rs : List Review) (dateIndex : List Int) (k : Nat) :
    Int × ℚ :=
  let pref := dateIndex.take (k + 1)
  let c := (pref.map (fun d =>
      ((rs.filter (fun r => r.createdAt = d)).length : Int))).sum
  let s : Int := (pref.map (fun d =>
      ((rs.filter (fun r => r.createdAt = d)).map (fun r => r.rating)).sum)).sum
  (c, if c = 0 then (0 : ℚ) else (s : ℚ) / (c : ℚ))

def computeReviewsCumulative (reviewsDf : List Review) (productId : String)
    (dateIndex : List Int) : List (Int × ℚ) :=
  (List.range dateIndex.length).map
    (reviewsCumulAt (reviewsDf.filter (fun r => r.productId = productId))
      dateIndex)

/-- The wide-format output record of the MLP path
(`_buildFeatureRowsVectorized`).  Float-valued fields are modelled as ℚ. -/
structure FeatureRow where
  productId : String
  storeId : Option String
  snapshotDate : Int
  sales7d : Int
  sales14d : Int
  sales30d : Int
  sales7dPerDay : ℚ
  sales30dPerDay : ℚ
  salesRatio7To30 : ℚ
  views7d : Int
  views30d : Int
  addToCarts7d : Int
  viewToPurchase7d : ℚ
  avgPrice : ℚ
  minPrice : ℚ
  maxPrice : ℚ
  avgRating : ℚ
  ratingCount : Int
  inventoryQty : Int
  daysSinceRestock : Int
  storeViews7d : Int
  storePurchases7d : Int
  dayOfWeek : Int
  isWeekend : Int
  futureSales14d : Int
  stockout14d : Int
  deriving DecidableEq

/-- One measure of `FeatureEngineer.buildTimeseriesTable`: reindex the
(pre-aggregated, one row per date) stats to the calendar, zero-filling
dates without data. -/
def seriesOf (f : StatRow → Int) (stats : List StatRow)
    (dateIndex : List Int) : List Int :=
  dateIndex.map (fun d => ((stats.find? (fun r => r.date = d)).map f).getD 0)

/-- The dense (views, purchases) store series used by the row builder. -/
def storeSeries (ss : List StatRow) (dateIndex : List Int) :
    List (Int × Int) :=
  dateIndex.map (fun d =>
    ((((ss.find? (fun r => r.date = d)).map (fun r => r.views)).getD 0),
     (((ss.find? (fun r => r.date = d)).map (fun r => r.purchases)).getD 0)))

/-- Price statistics over a product's variants (`avg`/`min`/`max`;
`(0, 0, 0)` when the product has no variants). -/
def priceStatsOf (variants : List Variant) : ℚ × ℚ × ℚ :=
  match variants with
  | [] => (0, 0, 0)
  | v :: vs =>
      (((v :: vs).map (fun w => w.price)).sum / (((v :: vs).length : Int) : ℚ),
       (vs.map (fun w => w.price)).foldl min v.price,
       (vs.map (fun w => w.price)).foldl max v.price)

/-- `BatchFeatureProcessor._buildFeatureRowsVectorized`
(`file_export_features.py` lines 262-389), with the rolling windows and the
dense series computed here from the per-product stats (the source computes
them in `_buildProductFeaturesMLP` and passes them in).  One row per
snapshot date found in the calendar; the label is the forward purchase sum
over `(snap, snap+14]` of the per-product stats compared against the as-of
inventory. -/
def buildFeatureRowsVectorized (cfg : FeatureConfig) (productId : String)
    (storeId : Option String) (snapshotDates dateIndex : List Int)
    (prodStats : List StatRow) (storeTs : List (Int × Int))
    (priceStats : ℚ × ℚ × ℚ) (inventoryByDate : List Int)
    (reviewsPairs : List (Int × ℚ)) (lastRestock : Option Int) :
    List FeatureRow :=
  let purch := seriesOf (fun r => r.purchases) prodStats dateIndex
  let views := seriesOf (fun r => r.views) prodStats dateIndex
  let carts := seriesOf (fun r => r.addToCarts) prodStats dateIndex
  let sales7s := rollingSum purch cfg.window7d
  let sales14s := rollingSum purch cfg.window14d
  let sales30s := rollingSum purch cfg.window30d
  let views7s := rollingSum views cfg.window7d
  let views30s := rollingSum views cfg.window30d
  let carts7s := rollingSum carts cfg.window7d
  (snapshotDates.filter (fun s => s ∈ dateIndex)).map (fun snap =>
    let idx := dateIndex.indexOf snap
    let sales7 := sales7s.getD idx 0
    let sales30 := sales30s.getD idx 0
    let views7 := views7s.getD idx 0
    let inventoryQty := inventoryByDate.getD idx 0
    let futureSales := ((prodStats.filter (fun r =>
        snap + 1 ≤ r.date ∧ r.date ≤ snap + 14)).map (fun r => r.purchases)).sum
    { productId := productId
      storeId := storeId
      snapshotDate := snap
      sales7d := sales7
      sales14d := sales14s.getD idx 0
      sales30d := sales30
      sales7dPerDay := (sales7 : ℚ) / 7
      sales30dPerDay := (sales30 : ℚ) / 30
      salesRatio7To30 := if 0 < sales30 then (sales7 : ℚ) / (sales30 : ℚ) else 0
      views7d := views7
      views30d := views30s.getD idx 0
      addToCarts7d := carts7s.getD idx 0
      viewToPurchase7d := if 0 < views7 then (sales7 : ℚ) / (views7 : ℚ) else 0
      avgPrice := priceStats.1
      minPrice := priceStats.2.1
      maxPrice := priceStats.2.2
      avgRating := (reviewsPairs.getD idx (0, 0)).2
      ratingCount := (reviewsPairs.getD idx (0, 0)).1
      inventoryQty := inventoryQty
      daysSinceRestock := daysSinceRestock lastRestock snap
      storeViews7d := if storeTs.isEmpty then 0 else (storeTs.getD idx (0, 0)).1
      storePurchases7d :=
        if storeTs.isEmpty then 0 else (storeTs.getD idx (0, 0)).2
      dayOfWeek := weekdayOf snap
      isWeekend := if 5 ≤ weekdayOf snap then 1 else 0
      futureSales14d := futureSales
      stockout14d := if inventoryQty < futureSales then 1 else 0 })

/-- The per-product stats mask of `_buildProductFeaturesMLP`: product id
must match, and the store id too when one is given (`if storeId:
stats_mask &= ...`). -/
def matchesStore (storeId : Option String) (r : StatRow) : Prop :=
  match storeId with
  | some sid => r.storeId = sid
  | none => True

instance (s : Option String) (r : StatRow) : Decidable (matchesStore s r) :=
  match s with
  | none => isTrue trivial
  | some sid => inferInstanceAs (Decidable (r.storeId = sid))

/-- `BatchFeatureProcessor._buildProductFeaturesMLP`
(`file_export_features.py` lines 177-260): per-product and per-store filtering of
the batch subsets, the store series, price stats, as-of inventory,
cumulative reviews and last-restock date, feeding the vectorized row
builder. -/
def buildProductFeaturesMLP (cfg : FeatureConfig) (productId : String)
    (storeId : Option String) (snapshotDates dateIndex : List Int)
    (prodStatsSubset storeStatsSubset : List StatRow)
    (variantsSubset : List Variant) (inventorySubset : List InvUpdate)
    (reviewsSubset : List Review) : List FeatureRow :=
  let prodStats := prodStatsSubset.filter (fun r =>
      r.productId = productId ∧ matchesStore storeId r)
  let storeTs : List (Int × Int) :=
    match storeId with
    | none => []
    | some sid => storeSeries
        (storeStatsSubset.filter (fun r => r.storeId = sid)) dateIndex
  let variants := variantsSubset.filter (fun v => v.productId = productId)
  let priceStats := priceStatsOf variants
  let variantIds := variants.map (fun v => v.id)
  let inventory := inventorySubset.filter (fun u => u.variantId ∈ variantIds)
  let inventoryByDate := computeInventoryByDate inventory variantIds dateIndex
  let reviewsPairs := computeReviewsCumulative
      (reviewsSubset.filter (fun r => r.productId = productId)) productId
      dateIndex
  let lastRestock := maxTs inventory
  buildFeatureRowsVectorized cfg productId storeId snapshotDates dateIndex
    prodStats storeTs priceStats inventoryByDate reviewsPairs lastRestock

/-- The calendar the MLP batch path uses: the snapshot range led in by
`paddingDays` (`processBatch`, lines 51-57); empty when there are no
snapshot dates (the source would fail the whole batch there). -/
def mlpDateIndex (cfg : FeatureConfig) (snapshotDates : List Int) : List Int :=
  match snapshotDates with
  | [] => []
  | s0 :: _ => calendarDays (s0 - cfg.paddingDays) (snapshotDates.getLastD 0)

/-- `BatchFeatureProcessor.processBatch` for the MLP path
(`file_export_features.py` lines 36-108): filter every table to the batch's
products/stores once, then build each product's rows and concatenate.  (The
source's per-product `try/except` never fires here: the embedding is
total.) -/
def processBatchMlp (cfg : FeatureConfig)
    (batchProducts : List (String × Option String))
    (snapshotDates : List Int) (productStats storeStats : List StatRow)
    (variants : List Variant) (inventory : List InvUpdate)
    (reviews : List Review) : List FeatureRow :=
  match snapshotDates with
  | [] => []
  | _ :: _ =>
      let dateIndex := mlpDateIndex cfg snapshotDates
      let batchPids := batchProducts.map (fun ps => ps.1)
      let batchSids := batchProducts.map (fun ps => ps.2)
      let prodStatsSubset :=
        productStats.filter (fun r => r.productId ∈ batchPids)
      let storeStatsSubset :=
        storeStats.filter (fun r => some r.storeId ∈ batchSids)
      let variantsSubset := variants.filter (fun v => v.productId ∈ batchPids)
      let inventorySubset :=
        inventory.filter (fun u => u.variantId ∈ batchPids)
      let reviewsSubset := reviews.filter (fun r => r.productId ∈ batchPids)
      (batchProducts.map (fun ps =>
        buildProductFeaturesMLP cfg ps.1 ps.2 snapshotDates dateIndex
          prodStatsSubset storeStatsSubset variantsSubset inventorySubset
          reviewsSubset)).flatten

/-- Fixed-size consecutive slices (`batches = [productList[i:i+batchSize]
...]`), fuelled for structural recursion; empty when the size is 0 (the
source's `range` would reject a zero step). -/
def chunksOfAux (n : Nat) : Nat → List (String × Option String) →
    List (List (String × Option String))
  | 0, _ => []
  | _, [] => []
  | Nat.succ fuel, x :: l => (x :: l).take n :: chunksOfAux n fuel ((x :: l).drop n)

def chunksOf (n : Nat) (l : List (String × Option String)) :
    List (List (String × Option String)) :=
  chunksOfAux n l.length l

/-- `FileFeatureExporter.exportFeatures`, MLP path, from batching to the
final row list (`file_export_features.py` lines 509-563): the product list
is sliced into consecutive batches; the executor's futures dictionary is
iterated in submission order and each `future.result()` is awaited there,
so the collected rows are the per-batch row lists concatenated in batch
order regardless of which batch finishes first; no sort is applied to the
MLP output. -/
def exportRowsMlp (cfg : FeatureConfig)
    (productList : List (String × Option String)) (batchSize : Nat)
    (snapshotDates : List Int) (productStats storeStats : List StatRow)
    (variants : List Variant) (inventory : List InvUpdate)
    (reviews : List Review) : List FeatureRow :=
  ((chunksOf batchSize productList).map (fun batch =>
    processBatchMlp cfg batch snapshotDates productStats storeStats variants
      inventory reviews)).flatten

/-- An all-zero row used as `getD` default. -/
def defaultFeatureRow : FeatureRow :=
  { productId := ""
    storeId := none
    snapshotDate := 0
    sales7d := 0
    sales14d := 0
    sales30d := 0
    sales7dPerDay := 0
    sales30dPerDay := 0
    salesRatio7To30 := 0
    views7d := 0
    views30d := 0
    addToCarts7d := 0
    viewToPurchase7d := 0
    avgPrice := 0
    minPrice := 0
    maxPrice := 0
    avgRating := 0
    ratingCount := 0
    inventoryQty := 0
    daysSinceRestock := 0
    storeViews7d := 0
    storePurchases7d := 0
    dayOfWeek := 0
    isWeekend := 0
    futureSales14d := 0
    stockout14d := 0 }

/-- Any list sum as a sum of its entries (`getD`) over positions. -/
theorem list_sum_eq_range_sum (l : List Int) :
    l.sum = ∑ i ∈ Finset.range l.length, l.getD i 0 := by
  induction l with
  | nil => simp
  | cons x t ih =>
      rw [List.sum_cons, List.length_cons, Finset.sum_range_succ']
      simp only [List.getD_cons_succ, List.getD_cons_zero]
      rw [← ih]
      ring

/-- The slice `(xs.take b).drop a` sums the entries at positions
`a ≤ i < min b xs.length`. -/
theorem sum_drop_take (xs : List Int) (a b : Nat) :
    ((xs.take b).drop a).sum = ∑ i ∈ Finset.Ico a (min b xs.length), xs.getD i 0 := by
  rw [list_sum_eq_range_sum]
  rw [List.length_drop, List.length_take]
  rcases le_or_lt a (min b xs.length) with hle | hlt
  · rw [Finset.sum_Ico_eq_sum_range]
    apply Finset.sum_congr rfl
    intro j hj
    rw [Finset.mem_range] at hj
    have hjlt : a + j < min b xs.length := by omega
    have h1 : ((xs.take b).drop a).getD j 0 = (xs.take b).getD (a + j) 0 := by
      rw [List.getD_eq_getElem?_getD, List.getD_eq_getElem?_getD,
        List.getElem?_drop]
    rw [h1, List.getD_eq_getElem?_getD, List.getD_eq_getElem?_getD,
      List.getElem?_take_of_lt (by omega : a + j < b)]
  · have hz : min b xs.length - a = 0 := by omega
    rw [hz, Finset.Ico_eq_empty (by omega)]
    simp

/-- Membership in the contiguous daily axis. -/
theorem mem_calendarDays (a b d : Int) :
    d ∈ calendarDays a b ↔ a ≤ d ∧ d ≤ b := by
  unfold calendarDays
  simp only [List.mem_map, List.mem_range]
  constructor
  · rintro ⟨i, hi, rfl⟩
    omega
  · rintro ⟨h1, h2⟩
    refine ⟨(d - a).toNat, by omega, by omega⟩

/-- Value of the calendar at a position. -/
theorem calendarDays_getD (a b : Int) (k : Nat)
    (hk : k < (calendarDays a b).length) :
    (calendarDays a b).getD k 0 = a + k := by
  unfold calendarDays at *
  rw [List.length_map, List.length_range] at hk
  rw [List.getD_eq_getElem?_getD, List.getElem?_map, List.getElem?_range hk]
  rfl

/-- Length of the calendar. -/
theorem calendarDays_length (a b : Int) :
    (calendarDays a b).length = (b + 1 - a).toNat := by
  unfold calendarDays
  rw [List.length_map, List.length_range]

/-- C1: `computeLabel` sums purchases over the forward window `(D, D+14]` —
strictly after the snapshot `D`, inclusive of `D+14`, never including `D`
itself — and emits label `1` iff that forward sum strictly exceeds the
point-in-time inventory at `D`, else `0`. -/
theorem computeLabel_forward_window (p : String) (D inv : Int)
    (stats : List StatRow) :
    (computeLabel p D inv stats).1 =
      ((stats.filter (fun r => r.productId = p ∧ D < r.date ∧ r.date ≤ D + 14)).map
        (fun r => r.purchases)).sum
    ∧ ((computeLabel p D inv stats).2 = 1 ↔
        inv < (computeLabel p D inv stats).1)
    ∧ ((computeLabel p D inv stats).2 = 0 ↔
        (computeLabel p D inv stats).1 ≤ inv)
    ∧ (∀ r : StatRow, r.date = D → ¬ (D < r.date ∧ r.date ≤ D + 14))
    ∧ (∀ r : StatRow, r.date = D + 14 → (D < r.date ∧ r.date ≤ D + 14)) := by
  have hfe : (stats.filter (fun r =>
        r.productId = p ∧ D + 1 ≤ r.date ∧ r.date ≤ D + 14))
      = (stats.filter (fun r => r.productId = p ∧ D < r.date ∧ r.date ≤ D + 14)) := by
    apply List.filter_congr
    intro r _
    apply decide_eq_decide.mpr
    constructor
    · rintro ⟨h1, h2, h3⟩; exact ⟨h1, by omega, h3⟩
    · rintro ⟨h1, h2, h3⟩; exact ⟨h1, by omega, h3⟩
  have h1 : (computeLabel p D inv stats).1
      = ((stats.filter (fun r =>
          r.productId = p ∧ D < r.date ∧ r.date ≤ D + 14)).map
        (fun r => r.purchases)).sum := by
    show ((stats.filter (fun r =>
        r.productId = p ∧ D + 1 ≤ r.date ∧ r.date ≤ D + 14)).map
      (fun r => r.purchases)).sum = _
    rw [hfe]
  have h2 : (computeLabel p D inv stats).2
      = if inv < (computeLabel p D inv stats).1 then 1 else 0 := rfl
  refine ⟨h1, ?_, ?_, ?_, ?_⟩
  · constructor
    · intro h
      by_contra hc
      rw [h2, if_neg hc] at h
      exact absurd h (by decide)
    · intro hc
      rw [h2, if_pos hc]
  · constructor
    · intro h
      by_contra hc
      rw [h2, if_pos (by omega)] at h
      exact absurd h (by decide)
    · intro hc
      rw [h2, if_neg (by omega)]
  · intro r hr; omega
  · intro r hr; omega

/-- Witness for C1 at the spec's scenario: forward sum over `(0, 14]` is 50;
inventory 30 gives label 1, inventory 60 gives label 0. -/
theorem computeLabel_forward_window_witness :
    (computeLabel "p" 0 30 [⟨"p", "s", 5, 0, 50, 0, 0⟩]).2 = 1
    ∧ (computeLabel "p" 0 60 [⟨"p", "s", 5, 0, 50, 0, 0⟩]).2 = 0 := by
  have h1 := computeLabel_forward_window "p" 0 30 [⟨"p", "s", 5, 0, 50, 0, 0⟩]
  have h2 := computeLabel_forward_window "p" 0 60 [⟨"p", "s", 5, 0, 50, 0, 0⟩]
  exact ⟨h1.2.1.mpr (by decide), h2.2.2.1.mpr (by decide)⟩

/-- C3: the rolling engine emits one value per calendar position (never a
missing value); at position `k` the value is the trailing sum over positions
`k+1-W ≤ i ≤ k`, a window of `min (k+1) W` days (at least one day when
`0 < W`); a constant series of value `v` has rolling-`W` sum
`min (k+1) W * v` at 0-based position `k`, i.e. `min k 7 * v` on the `k`-th
day (1-based) for `W = 7`; and for a single event of 10 purchases at 0-based
day 3 of an 11-day series, `rolling7` is 10 at day 3, 10 at day 9 and 0 at
day 10. -/
theorem rollingSum_trailing_window (xs : List Int) (W : Nat) :
    (rollingSum xs W).length = xs.length
    ∧ (∀ k, k < xs.length →
        (rollingSum xs W).getD k 0 =
          ∑ i ∈ Finset.Ico (k + 1 - W) (k + 1), xs.getD i 0)
    ∧ (∀ k, (Finset.Ico (k + 1 - W) (k + 1)).card = min (k + 1) W
        ∧ (0 < W → 1 ≤ (Finset.Ico (k + 1 - W) (k + 1)).card))
    ∧ (∀ (v : Int) (n k : Nat), k < n →
        (rollingSum (List.replicate n v) W).getD k 0 = min (k + 1) W * v)
    ∧ (∀ (v : Int) (n k : Nat), 1 ≤ k → k ≤ n →
        (rollingSum (List.replicate n v) 7).getD (k - 1) 0 = min k 7 * v)
    ∧ ((rollingSum [0, 0, 0, 10, 0, 0, 0, 0, 0, 0, 0] 7).getD 3 0 = 10
        ∧ (rollingSum [0, 0, 0, 10, 0, 0, 0, 0, 0, 0, 0] 7).getD 9 0 = 10
        ∧ (rollingSum [0, 0, 0, 10, 0, 0, 0, 0, 0, 0, 0] 7).getD 10 0 = 0) := by
  have hget : ∀ (ys : List Int) (V k : Nat), k < ys.length →
      (rollingSum ys V).getD k 0 = trailingSum ys V k := by
    intro ys V k hk
    unfold rollingSum
    rw [List.getD_eq_getElem?_getD, List.getElem?_map, List.getElem?_range hk]
    rfl
  have hwin : ∀ (ys : List Int) (V k : Nat), k < ys.length →
      (rollingSum ys V).getD k 0 =
        ∑ i ∈ Finset.Ico (k + 1 - V) (k + 1), ys.getD i 0 := by
    intro ys V k hk
    rw [hget ys V k hk]
    unfold trailingSum
    rw [sum_drop_take]
    have : min (k + 1) ys.length = k + 1 := by omega
    rw [this]
  have hconst : ∀ (v : Int) (V n k : Nat), k < n →
      (rollingSum (List.replicate n v) V).getD k 0 = min (k + 1) V * v := by
    intro v V n k hk
    rw [hwin (List.replicate n v) V k (by simpa using hk)]
    have hval : ∀ i ∈ Finset.Ico (k + 1 - V) (k + 1),
        (List.replicate n v).getD i 0 = v := by
      intro i hi
      rw [Finset.mem_Ico] at hi
      rw [List.getD_eq_getElem?_getD, List.getElem?_replicate]
      have : i < n := by omega
      simp [this]
    rw [Finset.sum_congr rfl hval, Finset.sum_const, Nat.card_Ico]
    have : k + 1 - (k + 1 - V) = min (k + 1) V := by omega
    rw [this, nsmul_eq_mul]
  refine ⟨?_, fun k hk => hwin xs W k hk, ?_, fun v n k hk => hconst v W n k hk,
      ?_, ?_, ?_, ?_⟩
  · unfold rollingSum
    rw [List.length_map, List.length_range]
  · intro k
    rw [Nat.card_Ico]
    omega
  · intro v n k hk hkn
    rw [hconst v 7 n (k - 1) (by omega)]
    have : (k - 1) + 1 = k := by omega
    rw [this]
  · rw [hwin [0, 0, 0, 10, 0, 0, 0, 0, 0, 0, 0] 7 3 (by decide)]; decide
  · rw [hwin [0, 0, 0, 10, 0, 0, 0, 0, 0, 0, 0] 7 9 (by decide)]; decide
  · rw [hwin [0, 0, 0, 10, 0, 0, 0, 0, 0, 0, 0] 7 10 (by decide)]; decide

/-- Witness for C3: a constant series of 2s has rolling-7 sum `3 * 2 = 6` at
position 2, and the scenario values from the theorem hold at `xs = e3`. -/
theorem rollingSum_trailing_window_witness :
    (rollingSum (List.replicate 3 (2 : Int)) 7).getD 2 0 = 6 := by
  have h := (rollingSum_trailing_window (List.replicate 3 (2 : Int)) 7).2.2.2.1
    2 3 2 (by decide)
  simpa using h

/-- C9 counterexample: `getDateRangeWithPadding` never fails.  On
`end < start` (10, 5) it returns `(10, 5)` where the spec-worded builder
rejects the range, and on negative padding (-3) it returns `(13, 20)` where
the spec-worded builder rejects the padding. -/
theorem getDateRange_no_validation :
    getDateRangeWithPadding 10 5 0 = (10, 5)
    ∧ specGetDateRangeWithPadding 10 5 0 = none
    ∧ getDateRangeWithPadding 10 20 (-3) = (13, 20)
    ∧ specGetDateRangeWithPadding 10 20 (-3) = none := by
  refine ⟨rfl, ?_, rfl, ?_⟩ <;> simp [specGetDateRangeWithPadding]

/-- C9 (amended): `getDateRangeWithPadding` returns `(start − padding, end)`
unconditionally — it never raises for `end < start` or `padding < 0` — and
the daily axis built from its result is the contiguous sequence
`start − padding, …, end` (empty when `end < start − padding`). -/
theorem getDateRange_padded_axis (s e p : Int) :
    getDateRangeWithPadding s e p = (s - p, e)
    ∧ (∀ a b : Int, b < a → calendarDays a b = [])
    ∧ (∀ a b : Int, a ≤ b →
        (calendarDays a b).length = (b - a).toNat + 1
        ∧ (∀ k : Nat, k < (calendarDays a b).length →
            (calendarDays a b).getD k 0 = a + k)
        ∧ (∀ d : Int, d ∈ calendarDays a b ↔ a ≤ d ∧ d ≤ b)) := by
  refine ⟨rfl, ?_, ?_⟩
  · intro a b hba
    rw [← List.length_eq_zero]
    rw [calendarDays_length]
    omega
  · intro a b hab
    refine ⟨?_, fun k hk => calendarDays_getD a b k hk, fun d => mem_calendarDays a b d⟩
    rw [calendarDays_length]
    omega

/-- Witness for C9 (amended) at `s = 10, e = 12, p = 3`: the padded range is
`(7, 12)` and the axis from 7 to 12 has 6 days starting at 7. -/
theorem getDateRange_padded_axis_witness :
    getDateRangeWithPadding 10 12 3 = (7, 12)
    ∧ (calendarDays 7 12).length = 6
    ∧ (calendarDays 7 12).getD 0 0 = 7 := by
  have h := getDateRange_padded_axis 10 12 3
  have h2 := h.2.2 7 12 (by decide)
  exact ⟨h.1, by rw [h2.1]; decide, by rw [h2.2.1 0 (by rw [h2.1]; decide)]; decide⟩

theorem dedupByTsAux_subset :
    ∀ (l : List InvUpdate) (seen : List Int), ∀ u ∈ dedupByTsAux seen l, u ∈ l := by
  intro l
  induction l with
  | nil => intro seen u hu; cases hu
  | cons x rest ih =>
      intro seen u hu
      by_cases hx : x.updatedAt ∈ seen
      · simp only [dedupByTsAux, if_pos hx] at hu
        exact List.mem_cons_of_mem _ (ih seen u hu)
      · simp only [dedupByTsAux, if_neg hx] at hu
        rcases List.mem_cons.mp hu with rfl | h
        · exact List.mem_cons_self _ _
        · exact List.mem_cons_of_mem _ (ih _ u h)

theorem dedupByTs_subset (l : List InvUpdate) : ∀ u ∈ dedupByTs l, u ∈ l :=
  dedupByTsAux_subset l []

theorem dedupByTsAux_eq_self :
    ∀ (l : List InvUpdate) (seen : List Int),
    (l.map (fun u => u.updatedAt)).Nodup →
    (∀ u ∈ l, u.updatedAt ∉ seen) →
    dedupByTsAux seen l = l := by
  intro l
  induction l with
  | nil => intro seen _ _; rfl
  | cons x rest ih =>
      intro seen hnd hseen
      rw [List.map_cons, List.nodup_cons] at hnd
      have hx : x.updatedAt ∉ seen := hseen x (List.mem_cons_self _ _)
      simp only [dedupByTsAux, if_neg hx]
      congr 1
      apply ih _ hnd.2
      intro u hu hc
      rcases List.mem_cons.mp hc with h | h
      · exact hnd.1 (h ▸ List.mem_map_of_mem (fun u => u.updatedAt) hu)
      · exact hseen u (List.mem_cons_of_mem _ hu) h

theorem dedupByTs_eq_self (l : List InvUpdate)
    (h : (l.map (fun u => u.updatedAt)).Nodup) : dedupByTs l = l :=
  dedupByTsAux_eq_self l [] h (fun _ _ hc => by cases hc)

theorem mem_uniqueFirstAux :
    ∀ (l : List String) (seen : List String) (x : String),
    x ∈ uniqueFirstAux seen l ↔ x ∈ l ∧ x ∉ seen := by
  intro l
  induction l with
  | nil => intro seen x; simp [uniqueFirstAux]
  | cons y rest ih =>
      intro seen x
      by_cases hy : y ∈ seen
      · simp only [uniqueFirstAux, if_pos hy, ih, List.mem_cons]
        constructor
        · rintro ⟨h1, h2⟩; exact ⟨Or.inr h1, h2⟩
        · rintro ⟨h1 | h1, h2⟩
          · exact absurd (h1 ▸ hy) h2
          · exact ⟨h1, h2⟩
      · simp only [uniqueFirstAux, if_neg hy, List.mem_cons, ih]
        constructor
        · rintro (rfl | ⟨h1, h2⟩)
          · exact ⟨Or.inl rfl, hy⟩
          · exact ⟨Or.inr h1, fun hc => h2 (Or.inr hc)⟩
        · rintro ⟨rfl | h1, h2⟩
          · exact Or.inl rfl
          · by_cases hxy : x = y
            · exact Or.inl hxy
            · exact Or.inr ⟨h1, fun hc => hc.elim hxy h2⟩

theorem mem_uniqueFirst (l : List String) (x : String) :
    x ∈ uniqueFirst l ↔ x ∈ l := by
  unfold uniqueFirst
  rw [mem_uniqueFirstAux]
  simp

theorem nodup_uniqueFirstAux :
    ∀ (l : List String) (seen : List String), (uniqueFirstAux seen l).Nodup := by
  intro l
  induction l with
  | nil => intro seen; exact List.nodup_nil
  | cons y rest ih =>
      intro seen
      by_cases hy : y ∈ seen
      · simpa only [uniqueFirstAux, if_pos hy] using ih seen
      · simp only [uniqueFirstAux, if_neg hy, List.nodup_cons]
        refine ⟨fun hc => ?_, ih _⟩
        exact ((mem_uniqueFirstAux rest (y :: seen) y).mp hc).2
          (List.mem_cons_self _ _)

theorem nodup_uniqueFirst (l : List String) : (uniqueFirst l).Nodup :=
  nodup_uniqueFirstAux l []

theorem asofQty_nil (d : Int) : asofQty [] d = 0 := rfl

theorem asofQty_mem (l : List InvUpdate) (d : Int) :
    asofQty l d = 0 ∨ ∃ u ∈ l, u.updatedAt ≤ d ∧ asofQty l d = u.quantity := by
  unfold asofQty
  rcases hl : (l.filter (fun u => u.updatedAt ≤ d)).getLast? with _ | u
  · exact Or.inl (by rw [hl]; rfl)
  · right
    have hm : u ∈ l.filter (fun u => u.updatedAt ≤ d) :=
      List.mem_of_getLast?_eq_some hl
    exact ⟨u, List.mem_of_mem_filter hm, by simpa using List.of_mem_filter hm,
      by rw [hl]; rfl⟩

theorem asofQty_eq_zero (l : List InvUpdate) (d : Int)
    (h : ∀ u ∈ l, ¬ u.updatedAt ≤ d) : asofQty l d = 0 := by
  unfold asofQty
  have hf : l.filter (fun u => u.updatedAt ≤ d) = [] := by
    apply List.filter_eq_nil_iff.mpr
    intro u hu
    simpa using h u hu
  rw [hf]
  rfl

/-- In a strictly timestamp-sorted list, the backward as-of value at `d` is
the quantity of the (unique) most recent update at or before `d`. -/
theorem asofQty_sorted_max (d : Int) (u : InvUpdate) :
    ∀ (l : List InvUpdate),
    l.Pairwise (fun a b => a.updatedAt < b.updatedAt) →
    u ∈ l → u.updatedAt ≤ d →
    (∀ w ∈ l, w.updatedAt ≤ d → w.updatedAt ≤ u.updatedAt) →
    asofQty l d = u.quantity := by
  intro l
  induction l with
  | nil => intro _ hu; cases hu
  | cons a t ih =>
      intro hsort hu hud hmax
      have hpa := (List.pairwise_cons.mp hsort).1
      have hpt := (List.pairwise_cons.mp hsort).2
      unfold asofQty
      rcases List.mem_cons.mp hu with rfl | hut
      · have hft : t.filter (fun w => w.updatedAt ≤ d) = [] := by
          apply List.filter_eq_nil_iff.mpr
          intro w hw
          have h1 := hpa w hw
          have h2 := hmax w (List.mem_cons_of_mem _ hw)
          simp only [decide_eq_true_eq]
          omega
        rw [List.filter_cons_of_pos (by simpa using hud), hft]
        simp
      · have haf : a.updatedAt ≤ d := le_trans (le_of_lt (hpa u hut)) hud
        rw [List.filter_cons_of_pos (by simpa using haf)]
        have hne : t.filter (fun w => w.updatedAt ≤ d) ≠ [] := by
          intro hemp
          have : u ∈ t.filter (fun w => w.updatedAt ≤ d) :=
            List.mem_filter.mpr ⟨hut, by simpa using hud⟩
          rw [hemp] at this
          cases this
        have hihr := ih hpt hut hud
          (fun w hw hwd => hmax w (List.mem_cons_of_mem _ hw) hwd)
        unfold asofQty at hihr
        rcases hf : t.filter (fun w => w.updatedAt ≤ d) with _ | ⟨x, xs⟩
        · exact absurd hf hne
        · rw [hf] at hihr
          rw [hf, List.getLast?_cons_cons]
          exact hihr

theorem sortByTs_perm (l : List InvUpdate) : List.Perm (sortByTs l) l :=
  List.perm_insertionSort tsLe l

theorem sortByTs_pairwise_le (l : List InvUpdate) :
    (sortByTs l).Pairwise tsLe :=
  List.sorted_insertionSort tsLe l

theorem sortByTs_nodup_ts (l : List InvUpdate)
    (h : (l.map (fun u => u.updatedAt)).Nodup) :
    ((sortByTs l).map (fun u => u.updatedAt)).Nodup :=
  (((sortByTs_perm l).map (fun u => u.updatedAt)).nodup_iff).mpr h

theorem sortByTs_pairwise_lt (l : List InvUpdate)
    (h : (l.map (fun u => u.updatedAt)).Nodup) :
    (sortByTs l).Pairwise (fun a b => a.updatedAt < b.updatedAt) := by
  have hne : (sortByTs l).Pairwise (fun a b => a.updatedAt ≠ b.updatedAt) := by
    have := sortByTs_nodup_ts l h
    rw [List.Nodup, List.pairwise_map] at this
    exact this
  have hle := sortByTs_pairwise_le l
  refine ((hle.and hne).imp ?_)
  rintro a b ⟨h1, h2⟩
  exact lt_of_le_of_ne h1 h2

/-- The per-variant as-of value is the quantity of the most recent update
at or before the query date (distinct per-variant timestamps). -/
theorem variantAsof_most_recent (updates : List InvUpdate) (v : String)
    (d : Int) (u : InvUpdate)
    (hnd : ((updates.filter (fun w => w.variantId = v)).map
      (fun w => w.updatedAt)).Nodup)
    (hu : u ∈ updates.filter (fun w => w.variantId = v))
    (hud : u.updatedAt ≤ d)
    (hmax : ∀ w ∈ updates.filter (fun w => w.variantId = v),
        w.updatedAt ≤ d → w.updatedAt ≤ u.updatedAt) :
    variantAsof updates v d = u.quantity := by
  unfold variantAsof
  set us := updates.filter (fun w => w.variantId = v) with hus
  have hperm := sortByTs_perm us
  have hded : dedupByTs (sortByTs us) = sortByTs us :=
    dedupByTs_eq_self _ (sortByTs_nodup_ts us hnd)
  rw [hded]
  exact asofQty_sorted_max d u (sortByTs us) (sortByTs_pairwise_lt us hnd)
    (hperm.mem_iff.mpr hu) hud
    (fun w hw hwd => hmax w (hperm.mem_iff.mp hw) hwd)

/-- Strictly before a variant's earliest update the as-of value is 0. -/
theorem variantAsof_zero (updates : List InvUpdate) (v : String) (d : Int)
    (h : ∀ w ∈ updates.filter (fun w => w.variantId = v), d < w.updatedAt) :
    variantAsof updates v d = 0 := by
  unfold variantAsof
  apply asofQty_eq_zero
  intro w hw
  have hw2 : w ∈ sortByTs (updates.filter (fun w => w.variantId = v)) :=
    dedupByTs_subset _ w hw
  have hw3 := (sortByTs_perm _).mem_iff.mp hw2
  have := h w hw3
  omega

/-- Every per-variant as-of value is 0 or the quantity of some update row. -/
theorem variantAsof_mem (updates : List InvUpdate) (v : String) (d : Int) :
    variantAsof updates v d = 0
    ∨ ∃ u ∈ updates, variantAsof updates v d = u.quantity := by
  unfold variantAsof
  rcases asofQty_mem (dedupByTs (sortByTs (updates.filter
      (fun w => w.variantId = v)))) d with h | ⟨u, hu, _, hq⟩
  · exact Or.inl h
  · right
    refine ⟨u, ?_, hq⟩
    have h2 := dedupByTs_subset _ u hu
    have h3 := (sortByTs_perm _).mem_iff.mp h2
    exact List.mem_of_mem_filter h3

theorem map_getD_at (f : Int → Int) (l : List Int) (k : Nat) (hk : k < l.length) :
    (l.map f).getD k 0 = f (l.getD k 0) := by
  rw [List.getD_eq_getElem?_getD, List.getElem?_map, List.getElem?_eq_getElem hk,
    List.getD_eq_getElem?_getD, List.getElem?_eq_getElem hk]
  rfl

/-- Summing the per-variant as-of values over the distinct variants of the
filtered frame equals summing them over the requested (distinct) variant
ids: variants without updates contribute 0 and filtering to the id set does
not change any variant's own update rows. -/
theorem inventory_sum_over_variants (invDf : List InvUpdate)
    (variantIds : List String) (hvar : variantIds.Nodup) (d : Int) :
    ((uniqueFirst ((sortByTs (invDf.filter
        (fun u => u.variantId ∈ variantIds))).map (fun u => u.variantId))).map
      (fun v => variantAsof (invDf.filter
        (fun u => u.variantId ∈ variantIds)) v d)).sum
    = (variantIds.map (fun v => variantAsof invDf v d)).sum := by
  set invSub := invDf.filter (fun u => u.variantId ∈ variantIds) with hsub
  set vs := uniqueFirst ((sortByTs invSub).map (fun u => u.variantId)) with hvs
  have hvs_nodup : vs.Nodup := nodup_uniqueFirst _
  have hvs_mem : ∀ v ∈ vs, v ∈ variantIds := by
    intro v hv
    rw [hvs, mem_uniqueFirst] at hv
    rcases List.mem_map.mp hv with ⟨u, hu, rfl⟩
    have hu2 := (sortByTs_perm _).mem_iff.mp hu
    rw [hsub] at hu2
    simpa using List.of_mem_filter hu2
  have hfilter_eq : ∀ v ∈ variantIds,
      invSub.filter (fun u => u.variantId = v)
        = invDf.filter (fun u => u.variantId = v) := by
    intro v hv
    rw [hsub, List.filter_filter]
    apply List.filter_congr
    intro u _
    by_cases he : u.variantId = v
    · simp [he, hv]
    · simp [he]
  have hasof_eq : ∀ v ∈ variantIds,
      variantAsof invSub v d = variantAsof invDf v d := by
    intro v hv
    unfold variantAsof
    rw [hfilter_eq v hv]
  have hzero : ∀ v ∈ variantIds, v ∉ vs → variantAsof invDf v d = 0 := by
    intro v hv hnv
    have hempty : invDf.filter (fun u => u.variantId = v) = [] := by
      rcases hf : invDf.filter (fun u => u.variantId = v) with _ | ⟨u, us⟩
      · exact hf
      · exfalso
        have hu : u ∈ invDf.filter (fun u => u.variantId = v) := by
          rw [hf]; exact List.mem_cons_self _ _
        have huv : u.variantId = v := by simpa using List.of_mem_filter hu
        have huin : u ∈ invSub := by
          rw [hsub]
          exact List.mem_filter.mpr
            ⟨List.mem_of_mem_filter hu, by simp [huv, hv]⟩
        refine hnv ?_
        rw [hvs, mem_uniqueFirst]
        exact List.mem_map.mpr ⟨u, (sortByTs_perm _).mem_iff.mpr huin, huv⟩
    have hded : dedupByTs (sortByTs ([] : List InvUpdate)) = [] := rfl
    unfold variantAsof
    rw [hempty, hded]
    exact asofQty_nil d
  have step1 : (vs.map (fun v => variantAsof invSub v d)).sum
      = (vs.map (fun v => variantAsof invDf v d)).sum := by
    rw [List.map_congr_left (fun v hv => hasof_eq v (hvs_mem v hv))]
  have step2 : (vs.map (fun v => variantAsof invDf v d)).sum
      = vs.toFinset.sum (fun v => variantAsof invDf v d) :=
    (List.sum_toFinset _ hvs_nodup).symm
  have step3 : vs.toFinset.sum (fun v => variantAsof invDf v d)
      = variantIds.toFinset.sum (fun v => variantAsof invDf v d) := by
    apply Finset.sum_subset
    · intro x hx
      exact List.mem_toFinset.mpr (hvs_mem x (List.mem_toFinset.mp hx))
    · intro x hx hnx
      exact hzero x (List.mem_toFinset.mp hx)
        (fun hc => hnx (List.mem_toFinset.mpr hc))
  have step4 : variantIds.toFinset.sum (fun v => variantAsof invDf v d)
      = (variantIds.map (fun v => variantAsof invDf v d)).sum :=
    List.sum_toFinset _ hvar
  rw [step1, step2, step3, step4]

/-- C2: the state reconstructor emits one value per calendar date; each
value is the sum over all requested sub-entities of that sub-entity's
backward-inclusive as-of value; a sub-entity's as-of value is the quantity
of its most recent update at or before the query date, and 0 on dates
strictly before its earliest update. -/
theorem computeInventoryByDate_spec (invDf : List InvUpdate)
    (variantIds : List String) (dateIndex : List Int)
    (hvar : variantIds.Nodup)
    (hts : ∀ v ∈ variantIds, ((invDf.filter (fun w => w.variantId = v)).map
      (fun w => w.updatedAt)).Nodup) :
    (computeInventoryByDate invDf variantIds dateIndex).length = dateIndex.length
    ∧ (∀ k, k < dateIndex.length →
        (computeInventoryByDate invDf variantIds dateIndex).getD k 0 =
          (variantIds.map
            (fun v => variantAsof invDf v (dateIndex.getD k 0))).sum)
    ∧ (∀ v ∈ variantIds, ∀ d : Int,
        ∀ u ∈ invDf.filter (fun w => w.variantId = v),
        u.updatedAt ≤ d →
        (∀ w ∈ invDf.filter (fun w => w.variantId = v),
          w.updatedAt ≤ d → w.updatedAt ≤ u.updatedAt) →
        variantAsof invDf v d = u.quantity)
    ∧ (∀ v : String, ∀ d : Int,
        (∀ w ∈ invDf.filter (fun w => w.variantId = v), d < w.updatedAt) →
        variantAsof invDf v d = 0) := by
  have hdef : computeInventoryByDate invDf variantIds dateIndex
      = dateIndex.map (fun d =>
          ((uniqueFirst ((sortByTs (invDf.filter
              (fun u => u.variantId ∈ variantIds))).map
            (fun u => u.variantId))).map
            (fun v => variantAsof (invDf.filter
              (fun u => u.variantId ∈ variantIds)) v d)).sum) := rfl
  refine ⟨?_, ?_, ?_, ?_⟩
  · rw [hdef, List.length_map]
  · intro k hk
    rw [hdef, map_getD_at _ _ k hk]
    exact inventory_sum_over_variants invDf variantIds hvar _
  · intro v hv d u hu hud hmax
    exact variantAsof_most_recent invDf v d u (hts v hv) hu hud hmax
  · intro v d h
    exact variantAsof_zero invDf v d h

/-- Witness for C2 at the spec's scenario: updates at day 0 (qty 100) and
day 10 (qty 40); reconstructed inventory is 100 at day 5, 40 at day 10 and
40 at day 15. -/
theorem computeInventoryByDate_spec_witness :
    (computeInventoryByDate [⟨"v1", 0, 100⟩, ⟨"v1", 10, 40⟩] ["v1"]
      [5, 10, 15]).getD 0 0 = 100
    ∧ (computeInventoryByDate [⟨"v1", 0, 100⟩, ⟨"v1", 10, 40⟩] ["v1"]
      [5, 10, 15]).getD 1 0 = 40
    ∧ (computeInventoryByDate [⟨"v1", 0, 100⟩, ⟨"v1", 10, 40⟩] ["v1"]
      [5, 10, 15]).getD 2 0 = 40 := by
  have h := computeInventoryByDate_spec [⟨"v1", 0, 100⟩, ⟨"v1", 10, 40⟩]
    ["v1"] [5, 10, 15] (by decide) (by decide)
  refine ⟨?_, ?_, ?_⟩
  · rw [h.2.1 0 (by decide)]; decide
  · rw [h.2.1 1 (by decide)]; decide
  · rw [h.2.1 2 (by decide)]; decide

/-- C4 counterexample: a single update with quantity −5 at day 0 yields
reconstructed inventory −5 < 0 on day 0.  The source only applies
`fillna(0)` to missing as-of matches; it never clips quantities at 0. -/
theorem computeInventoryByDate_negative :
    computeInventoryByDate [⟨"v", 0, -5⟩] ["v"] [0] = [-5]
    ∧ ¬ (0 : Int) ≤ -5 := by decide

/-- C4 (amended): every reconstructed per-date value is a sum of raw as-of
quantities (or 0), so it is nonnegative whenever every update quantity is
nonnegative; negative input quantities pass through unclipped. -/
theorem computeInventoryByDate_nonneg (invDf : List InvUpdate)
    (variantIds : List String) (dateIndex : List Int)
    (h : ∀ u ∈ invDf, 0 ≤ u.quantity) :
    ∀ x ∈ computeInventoryByDate invDf variantIds dateIndex, 0 ≤ x := by
  intro x hx
  have hdef : computeInventoryByDate invDf variantIds dateIndex
      = dateIndex.map (fun d =>
          ((uniqueFirst ((sortByTs (invDf.filter
              (fun u => u.variantId ∈ variantIds))).map
            (fun u => u.variantId))).map
            (fun v => variantAsof (invDf.filter
              (fun u => u.variantId ∈ variantIds)) v d)).sum) := rfl
  rw [hdef] at hx
  rcases List.mem_map.mp hx with ⟨d, _, rfl⟩
  apply List.sum_nonneg
  intro q hq
  rcases List.mem_map.mp hq with ⟨v, _, rfl⟩
  rcases variantAsof_mem (invDf.filter
      (fun u => u.variantId ∈ variantIds)) v d with hz | ⟨u, hu, hqe⟩
  · rw [hz]
  · rw [hqe]
    exact h u (List.mem_of_mem_filter hu)

/-- Witness for C4 (amended): with a nonnegative update the day-0 value is
nonnegative. -/
theorem computeInventoryByDate_nonneg_witness :
    0 ≤ (computeInventoryByDate [⟨"v", 0, 3⟩] ["v"] [0]).getD 0 0 := by
  have h := computeInventoryByDate_nonneg [⟨"v", 0, 3⟩] ["v"] [0] (by decide)
  exact h _ (by decide)

theorem maxTs_spec : ∀ (l : List InvUpdate),
    (l = [] ∧ maxTs l = none)
    ∨ ∃ t, maxTs l = some t ∧ t ∈ l.map (fun u => u.updatedAt)
        ∧ ∀ u ∈ l, u.updatedAt ≤ t := by
  intro l
  induction l with
  | nil => exact Or.inl ⟨rfl, rfl⟩
  | cons x rest ih =>
      right
      rcases ih with ⟨hre, hrn⟩ | ⟨s, hs, hmem, hle⟩
      · subst hre
        refine ⟨x.updatedAt, ?_, List.mem_map_of_mem _ (List.mem_cons_self _ _), ?_⟩
        · simp [maxTs]
        · intro u hu
          rcases List.mem_cons.mp hu with rfl | h
          · exact le_refl _
          · cases h
      · refine ⟨max x.updatedAt s, ?_, ?_, ?_⟩
        · simp [maxTs, hs]
        · rcases le_total x.updatedAt s with h | h
          · rw [max_eq_right h]
            exact List.mem_cons_of_mem _ hmem
          · rw [max_eq_left h]
            exact List.mem_map_of_mem _ (List.mem_cons_self _ _)
        · intro u hu
          rcases List.mem_cons.mp hu with rfl | h
          · exact le_max_left _ _
          · exact le_trans (hle u h) (le_max_right _ _)

/-- C5 counterexample: updates at days 2 and 20, snapshot day 10.  The most
recent update at or before day 10 is the one at day 2, so the claim requires
`daysSinceRestock = 10 − 2 = 8`; but the source compares the snapshot
against the global maximum update timestamp (20 > 10) and emits the
sentinel 365. -/
theorem daysSinceRestock_later_update :
    daysSinceRestockOf [⟨"v", 2, 5⟩, ⟨"v", 20, 7⟩] 10 = 365
    ∧ (⟨"v", 2, 5⟩ : InvUpdate) ∈ [(⟨"v", 2, 5⟩ : InvUpdate), ⟨"v", 20, 7⟩]
    ∧ (2 : Int) ≤ 10
    ∧ (∀ u ∈ [(⟨"v", 2, 5⟩ : InvUpdate), ⟨"v", 20, 7⟩],
        u.updatedAt ≤ 10 → u.updatedAt ≤ 2)
    ∧ (365 : Int) ≠ 10 - 2 := by decide

/-- C5 (amended): `daysSinceRestock` equals `D − t` where `t` is the
globally latest update timestamp, provided `t ≤ D`; it equals the sentinel
365 when there are no updates at all or when the globally latest update is
after `D` — even if earlier updates at or before `D` exist. -/
theorem daysSinceRestock_global (l : List InvUpdate) (D t : Int)
    (ht : t ∈ l.map (fun u => u.updatedAt))
    (hmax : ∀ u ∈ l, u.updatedAt ≤ t) :
    daysSinceRestockOf l D = (if t ≤ D then D - t else 365)
    ∧ daysSinceRestockOf [] D = 365 := by
  have hne : l ≠ [] := by rintro rfl; cases ht
  rcases maxTs_spec l with ⟨hl, _⟩ | ⟨s, hs, hsmem, hsle⟩
  · exact absurd hl hne
  · have hts : s = t := by
      rcases List.mem_map.mp ht with ⟨u, hu, rfl⟩
      rcases List.mem_map.mp hsmem with ⟨w, hw, rfl⟩
      exact le_antisymm (hmax w hw) (hsle u hu)
    subst hts
    constructor
    · unfold daysSinceRestockOf
      rw [hs]
      rfl
    · rfl

/-- Witness for C5 (amended): a single update at day 2 and snapshot day 10
gives `daysSinceRestock = 8`. -/
theorem daysSinceRestock_global_witness :
    daysSinceRestockOf [⟨"v", 2, 5⟩] 10 = 8 := by
  have h := daysSinceRestock_global [⟨"v", 2, 5⟩] 10 2 (by decide) (by decide)
  rw [h.1]
  decide

theorem length_eq_sum_ones (l : List Review) :
    (l.length : Int) = (l.map (fun _ => (1 : Int))).sum := by
  induction l with
  | nil => rfl
  | cons x t ih =>
      rw [List.map_cons, List.sum_cons, ← ih, List.length_cons]
      push_cast
      ring

/-- Splitting a filtered sum over a disjunction of disjoint predicates. -/
theorem sum_filter_or_disjoint (f : Review → Int)
    (p q : Review → Prop) [DecidablePred p] [DecidablePred q] :
    ∀ (l : List Review), (∀ x ∈ l, ¬(p x ∧ q x)) →
    ((l.filter (fun x => p x ∨ q x)).map f).sum
      = ((l.filter p).map f).sum + ((l.filter q).map f).sum := by
  intro l
  induction l with
  | nil => intro _; rfl
  | cons x t ih =>
      intro h
      have hx := h x (List.mem_cons_self _ _)
      have iht := ih (fun y hy => h y (List.mem_cons_of_mem _ hy))
      by_cases hp : p x
      · have hq : ¬ q x := fun hq => hx ⟨hp, hq⟩
        rw [List.filter_cons_of_pos (by simp [hp]),
          List.filter_cons_of_pos (by simp [hp]),
          List.filter_cons_of_neg (by simp [hq])]
        simp only [List.map_cons, List.sum_cons, iht]
        ring
      · by_cases hq : q x
        · rw [List.filter_cons_of_pos (by simp [hq]),
            List.filter_cons_of_neg (by simp [hp]),
            List.filter_cons_of_pos (by simp [hq])]
          simp only [List.map_cons, List.sum_cons, iht]
          ring
        · rw [List.filter_cons_of_neg (by simp [hp, hq]),
            List.filter_cons_of_neg (by simp [hp]),
            List.filter_cons_of_neg (by simp [hq])]
          exact iht

/-- Summing per-date filtered sums over a duplicate-free date list equals
one filtered sum over membership in that list. -/
theorem sum_per_date_eq_filter_mem (rs : List Review) (f : Review → Int) :
    ∀ (ds : List Int), ds.Nodup →
    (ds.map (fun d => ((rs.filter (fun r => r.createdAt = d)).map f).sum)).sum
      = ((rs.filter (fun r => r.createdAt ∈ ds)).map f).sum := by
  intro ds
  induction ds with
  | nil =>
      intro _
      have : rs.filter (fun r => r.createdAt ∈ ([] : List Int)) = [] := by
        apply List.filter_eq_nil_iff.mpr
        intro u _
        simp
      rw [this]
      rfl
  | cons d t ih =>
      intro hnd
      rw [List.nodup_cons] at hnd
      have hsplit := sum_filter_or_disjoint f
        (fun r => r.createdAt = d) (fun r => r.createdAt ∈ t) rs
        (fun x _ hx => hnd.1 (hx.1 ▸ hx.2))
      have hcongr : rs.filter (fun r => r.createdAt ∈ (d :: t))
          = rs.filter (fun r => r.createdAt = d ∨ r.createdAt ∈ t) := by
        apply List.filter_congr
        intro u _
        apply decide_eq_decide.mpr
        exact List.mem_cons
      rw [List.map_cons, List.sum_cons, ih hnd.2, hcongr, hsplit]

theorem range_map_getD (n : Nat) (f : Nat → Int × ℚ) (k : Nat) (hk : k < n) :
    ((List.range n).map f).getD k (0, 0) = f k := by
  rw [List.getD_eq_getElem?_getD, List.getElem?_map, List.getElem?_range hk]
  rfl

theorem counts_sum_eq (rs : List Review) (ds : List Int) (hnd : ds.Nodup) :
    (ds.map (fun d =>
        ((rs.filter (fun r => r.createdAt = d)).length : Int))).sum
      = ((rs.filter (fun r => r.createdAt ∈ ds)).length : Int) := by
  have h1 : ∀ d : Int, ((rs.filter (fun r => r.createdAt = d)).length : Int)
      = ((rs.filter (fun r => r.createdAt = d)).map (fun _ => (1 : Int))).sum :=
    fun d => length_eq_sum_ones _
  rw [List.map_congr_left (fun d _ => h1 d),
    sum_per_date_eq_filter_mem rs (fun _ => (1 : Int)) ds hnd,
    ← length_eq_sum_ones]

theorem ratings_sum_eq (rs : List Review) (ds : List Int) (hnd : ds.Nodup) :
    (ds.map (fun d =>
        ((rs.filter (fun r => r.createdAt = d)).map (fun r => r.rating)).sum)).sum
      = ((rs.filter (fun r => r.createdAt ∈ ds)).map (fun r => r.rating)).sum :=
  sum_per_date_eq_filter_mem rs (fun r => r.rating) ds hnd

/-- The per-position cumulative pair, expressed over one membership filter. -/
theorem reviewsCumulAt_eq (rs : List Review) (dateIndex : List Int) (k : Nat)
    (hnd : (dateIndex.take (k + 1)).Nodup) :
    reviewsCumulAt rs dateIndex k
      = (((rs.filter (fun r =>
            r.createdAt ∈ dateIndex.take (k + 1))).length : Int),
         if ((rs.filter (fun r =>
            r.createdAt ∈ dateIndex.take (k + 1))).length : Int) = 0
         then (0 : ℚ)
         else ((((rs.filter (fun r =>
            r.createdAt ∈ dateIndex.take (k + 1))).map
              (fun r => r.rating)).sum : Int) : ℚ)
           / (((rs.filter (fun r =>
            r.createdAt ∈ dateIndex.take (k + 1))).length : Int) : ℚ)) := by
  simp only [reviewsCumulAt]
  rw [counts_sum_eq rs _ hnd, ratings_sum_eq rs _ hnd]

/-- Positions whose calendar date carries no event repeat the previous
cumulative pair. -/
theorem reviewsCumulAt_carry (rs : List Review) (dateIndex : List Int)
    (k : Nat) (hk1 : k + 1 < dateIndex.length)
    (hzero : rs.filter (fun r => r.createdAt = dateIndex.getD (k + 1) 0) = []) :
    reviewsCumulAt rs dateIndex (k + 1) = reviewsCumulAt rs dateIndex k := by
  simp only [reviewsCumulAt]
  have htake : dateIndex.take (k + 1 + 1)
      = dateIndex.take (k + 1) ++ [dateIndex.getD (k + 1) 0] := by
    rw [List.take_succ, List.getD_eq_getElem?_getD,
      List.getElem?_eq_getElem hk1]
    rfl
  rw [htake, List.map_append, List.sum_append, List.map_append,
    List.sum_append]
  have hC : (([dateIndex.getD (k + 1) 0] : List Int).map (fun d =>
      ((rs.filter (fun r => r.createdAt = d)).length : Int))).sum = 0 := by
    rw [List.map_cons, List.map_nil, List.sum_cons, List.sum_nil, hzero]
    rfl
  have hS : (([dateIndex.getD (k + 1) 0] : List Int).map (fun d =>
      ((rs.filter (fun r => r.createdAt = d)).map
        (fun r => r.rating)).sum)).sum = 0 := by
    rw [List.map_cons, List.map_nil, List.sum_cons, List.sum_nil, hzero]
    rfl
  rw [hC, hS, add_zero, add_zero]

/-- C7 counterexample: one rating (value 4) on day 0, calendar `[5]`.  The
claim requires running count 1 and mean 4.0 at day 5 (the rating is at or
before day 5), but `reindex` drops events dated outside the calendar: the
source returns count 0, mean 0.0. -/
theorem computeReviewsCumulative_drops_precalendar :
    computeReviewsCumulative [⟨"p", 0, 4⟩] "p" [5] = [(0, 0)]
    ∧ (([⟨"p", 0, 4⟩] : List Review).filter
        (fun r => r.productId = "p" ∧ r.createdAt ≤ 5)).length = 1
    ∧ (0 : Int) ≠ 1 := by decide

/-- C7 (amended): per calendar position `k` the aggregator returns the
count and mean of the entity's ratings whose date equals one of the first
`k+1` calendar dates (same-day events included; events dated outside the
calendar — in particular before its first day — are dropped by the
reindex); positions whose date carries no event repeat the previous pair,
and the pair is `(0, 0)` while no counted event exists (the mean is never
undefined). -/
theorem computeReviewsCumulative_spec (reviewsDf : List Review) (p : String)
    (dateIndex : List Int) (hnd : dateIndex.Nodup) :
    (computeReviewsCumulative reviewsDf p dateIndex).length = dateIndex.length
    ∧ (∀ k, k < dateIndex.length →
        (computeReviewsCumulative reviewsDf p dateIndex).getD k (0, 0)
          = ((((reviewsDf.filter (fun r => r.productId = p)).filter
                (fun r => r.createdAt ∈ dateIndex.take (k + 1))).length : Int),
             if ((((reviewsDf.filter (fun r => r.productId = p)).filter
                (fun r => r.createdAt ∈ dateIndex.take (k + 1))).length : Int)) = 0
             then (0 : ℚ)
             else ((((((reviewsDf.filter (fun r => r.productId = p)).filter
                (fun r => r.createdAt ∈ dateIndex.take (k + 1))).map
                  (fun r => r.rating)).sum : Int)) : ℚ)
               / ((((((reviewsDf.filter (fun r => r.productId = p)).filter
                (fun r => r.createdAt ∈ dateIndex.take (k + 1))).length : Int))) : ℚ)))
    ∧ (∀ k, k + 1 < dateIndex.length →
        (reviewsDf.filter (fun r => r.productId = p)).filter
          (fun r => r.createdAt = dateIndex.getD (k + 1) 0) = [] →
        (computeReviewsCumulative reviewsDf p dateIndex).getD (k + 1) (0, 0)
          = (computeReviewsCumulative reviewsDf p dateIndex).getD k (0, 0))
    ∧ (∀ k, k < dateIndex.length →
        (reviewsDf.filter (fun r => r.productId = p)).filter
          (fun r => r.createdAt ∈ dateIndex.take (k + 1)) = [] →
        (computeReviewsCumulative reviewsDf p dateIndex).getD k (0, 0)
          = (0, 0)) := by
  have hgetD : ∀ k, k < dateIndex.length →
      (computeReviewsCumulative reviewsDf p dateIndex).getD k (0, 0)
        = reviewsCumulAt (reviewsDf.filter (fun r => r.productId = p))
            dateIndex k := by
    intro k hk
    simp only [computeReviewsCumulative]
    exact range_map_getD _ _ k hk
  refine ⟨?_, ?_, ?_, ?_⟩
  · simp only [computeReviewsCumulative]
    rw [List.length_map, List.length_range]
  · intro k hk
    rw [hgetD k hk]
    exact reviewsCumulAt_eq _ dateIndex k (hnd.sublist (List.take_sublist _ _))
  · intro k hk1 hzero
    have hk : k < dateIndex.length := by omega
    rw [hgetD k hk, hgetD (k + 1) hk1]
    exact reviewsCumulAt_carry _ dateIndex k hk1 hzero
  · intro k hk hemp
    rw [hgetD k hk,
      reviewsCumulAt_eq _ dateIndex k (hnd.sublist (List.take_sublist _ _)),
      hemp]
    rfl

/-- Witness for C7 (amended): ratings 5 (day 3) and 3 (day 4) over the
calendar `[3, 4, 5]`: at position 2 the running count is 2 and the running
mean is 4. -/
theorem computeReviewsCumulative_spec_witness :
    (computeReviewsCumulative [⟨"p", 3, 5⟩, ⟨"p", 4, 3⟩] "p"
      [3, 4, 5]).getD 2 (0, 0) = (2, 4) := by
  have h := computeReviewsCumulative_spec [⟨"p", 3, 5⟩, ⟨"p", 4, 3⟩] "p"
    [3, 4, 5] (by decide)
  rw [h.2.1 2 (by decide)]
  have hc : ((([⟨"p", 3, 5⟩, ⟨"p", 4, 3⟩] : List Review).filter
      (fun r => r.productId = "p")).filter
        (fun r => r.createdAt ∈ ([3, 4, 5] : List Int).take (2 + 1))).length
      = 2 := by decide
  have hs : ((([⟨"p", 3, 5⟩, ⟨"p", 4, 3⟩] : List Review).filter
      (fun r => r.productId = "p")).filter
        (fun r => r.createdAt ∈ ([3, 4, 5] : List Int).take (2 + 1))).map
          (fun r => r.rating) = [5, 3] := by decide
  rw [hc, hs]
  norm_num

theorem chunksOfAux_flatten (n : Nat) (hn : 0 < n) :
    ∀ (fuel : Nat) (l : List (String × Option String)), l.length ≤ fuel →
    (chunksOfAux n fuel l).flatten = l := by
  intro fuel
  induction fuel with
  | zero =>
      intro l hl
      have : l = [] := List.length_eq_zero.mp (Nat.le_zero.mp hl)
      subst this
      rfl
  | succ fuel ih =>
      intro l hl
      cases l with
      | nil => rfl
      | cons x xs =>
          simp only [chunksOfAux, List.flatten_cons]
          rw [ih _ ?_]
          · exact List.take_append_drop n (x :: xs)
          · rw [List.length_drop]
            simp only [List.length_cons] at hl ⊢
            omega

theorem chunksOf_flatten (n : Nat) (hn : 0 < n)
    (l : List (String × Option String)) : (chunksOf n l).flatten = l :=
  chunksOfAux_flatten n hn l.length l (le_refl _)

theorem flatten_map_flatten {α β : Type} (f : α → List β) :
    ∀ (ll : List (List α)),
    ((ll.map (fun b => (b.map f).flatten)).flatten)
      = ((ll.flatten).map f).flatten := by
  intro ll
  induction ll with
  | nil => rfl
  | cons b t ih =>
      simp only [List.map_cons, List.flatten_cons, List.map_append,
        List.flatten_append, ih]

/-- Filtering a table to the batch's products first does not change the
per-product build, provided the product (and its store id) belong to the
batch and — for the inventory table, which the source subsets by *product*
ids — every variant id equals its product id, as this exporter constructs
them (`variants['id'] = variants['productId']`,
`inventory['variantId'] = product_id`). -/
theorem buildProduct_subsets (cfg : FeatureConfig) (p : String)
    (sid : Option String) (snaps dateIndex : List Int)
    (productStats storeStats : List StatRow) (variants : List Variant)
    (inventory : List InvUpdate) (reviews : List Review)
    (batchPids : List String) (batchSids : List (Option String))
    (hp : p ∈ batchPids) (hsid : sid ∈ batchSids)
    (hvid : ∀ v ∈ variants, v.id = v.productId) :
    buildProductFeaturesMLP cfg p sid snaps dateIndex
      (productStats.filter (fun r => r.productId ∈ batchPids))
      (storeStats.filter (fun r => some r.storeId ∈ batchSids))
      (variants.filter (fun v => v.productId ∈ batchPids))
      (inventory.filter (fun u => u.variantId ∈ batchPids))
      (reviews.filter (fun r => r.productId ∈ batchPids))
    = buildProductFeaturesMLP cfg p sid snaps dateIndex productStats
        storeStats variants inventory reviews := by
  have e1 : (productStats.filter (fun r => r.productId ∈ batchPids)).filter
      (fun r => r.productId = p ∧ matchesStore sid r)
      = productStats.filter (fun r => r.productId = p ∧ matchesStore sid r) := by
    rw [List.filter_filter]
    apply List.filter_congr
    intro r _
    by_cases hc : r.productId = p ∧ matchesStore sid r
    · have hm : r.productId ∈ batchPids := hc.1 ▸ hp
      simp [hc, hm, hp]
    · simp [hc]
  have e2 : (variants.filter (fun v => v.productId ∈ batchPids)).filter
      (fun v => v.productId = p)
      = variants.filter (fun v => v.productId = p) := by
    rw [List.filter_filter]
    apply List.filter_congr
    intro v _
    by_cases hc : v.productId = p
    · have hm : v.productId ∈ batchPids := hc ▸ hp
      simp [hc, hm, hp]
    · simp [hc]
  have e3 : (reviews.filter (fun r => r.productId ∈ batchPids)).filter
      (fun r => r.productId = p)
      = reviews.filter (fun r => r.productId = p) := by
    rw [List.filter_filter]
    apply List.filter_congr
    intro r _
    by_cases hc : r.productId = p
    · have hm : r.productId ∈ batchPids := hc ▸ hp
      simp [hc, hm, hp]
    · simp [hc]
  have e5 : (inventory.filter (fun u => u.variantId ∈ batchPids)).filter
      (fun u => u.variantId ∈ (variants.filter
        (fun v => v.productId = p)).map (fun v => v.id))
      = inventory.filter (fun u => u.variantId ∈ (variants.filter
        (fun v => v.productId = p)).map (fun v => v.id)) := by
    rw [List.filter_filter]
    apply List.filter_congr
    intro u _
    by_cases hc : u.variantId ∈ (variants.filter
        (fun v => v.productId = p)).map (fun v => v.id)
    · have hup : u.variantId = p := by
        rcases List.mem_map.mp hc with ⟨v, hv, hvu⟩
        have h1 := hvid v (List.mem_of_mem_filter hv)
        have h2 : v.productId = p := by simpa using List.of_mem_filter hv
        rw [← hvu, h1, h2]
      have hm : u.variantId ∈ batchPids := hup ▸ hp
      simp [hc, hm, hp]
    · simp [hc]
  cases sid with
  | none =>
      simp only [buildProductFeaturesMLP]
      rw [e1, e2, e3, e5]
  | some s =>
      have e4 : (storeStats.filter
          (fun r => some r.storeId ∈ batchSids)).filter
            (fun r => r.storeId = s)
          = storeStats.filter (fun r => r.storeId = s) := by
        rw [List.filter_filter]
        apply List.filter_congr
        intro r _
        by_cases hc : r.storeId = s
        · have hm : some r.storeId ∈ batchSids := by rw [hc]; exact hsid
          simp [hc, hm, hsid]
        · simp [hc]
      simp only [buildProductFeaturesMLP]
      rw [e1, e2, e3, e4, e5]

/-- A batch's rows are the concatenation of its products' rows built
against the full (unsubset) tables. -/
theorem processBatch_eq (cfg : FeatureConfig)
    (batch : List (String × Option String)) (snaps : List Int)
    (productStats storeStats : List StatRow) (variants : List Variant)
    (inventory : List InvUpdate) (reviews : List Review)
    (hvid : ∀ v ∈ variants, v.id = v.productId) :
    processBatchMlp cfg batch snaps productStats storeStats variants
      inventory reviews
      = (batch.map (fun ps => buildProductFeaturesMLP cfg ps.1 ps.2 snaps
          (mlpDateIndex cfg snaps) productStats storeStats variants inventory
          reviews)).flatten := by
  cases snaps with
  | nil =>
      simp only [processBatchMlp]
      symm
      rw [List.flatten_eq_nil_iff]
      intro x hx
      rcases List.mem_map.mp hx with ⟨ps, _, rfl⟩
      rfl
  | cons s0 rest =>
      have hdef : processBatchMlp cfg batch (s0 :: rest) productStats
          storeStats variants inventory reviews
          = (batch.map (fun ps => buildProductFeaturesMLP cfg ps.1 ps.2
              (s0 :: rest) (mlpDateIndex cfg (s0 :: rest))
              (productStats.filter (fun r =>
                r.productId ∈ batch.map (fun ps => ps.1)))
              (storeStats.filter (fun r =>
                some r.storeId ∈ batch.map (fun ps => ps.2)))
              (variants.filter (fun v =>
                v.productId ∈ batch.map (fun ps => ps.1)))
              (inventory.filter (fun u =>
                u.variantId ∈ batch.map (fun ps => ps.1)))
              (reviews.filter (fun r =>
                r.productId ∈ batch.map (fun ps => ps.1))))).flatten := rfl
      rw [hdef]
      refine congrArg List.flatten (List.map_congr_left ?_)
      intro ps hps
      apply buildProduct_subsets cfg ps.1 ps.2 (s0 :: rest)
        (mlpDateIndex cfg (s0 :: rest)) productStats storeStats variants
        inventory reviews (batch.map (fun ps => ps.1))
        (batch.map (fun ps => ps.2))
        (List.mem_map_of_mem (fun ps => ps.1) hps)
        (List.mem_map_of_mem (fun ps => ps.2) hps) hvid

/-- The MLP export's row list in canonical form: the per-product
concatenation in product-list order, for any positive batch size. -/
theorem exportRows_canonical (cfg : FeatureConfig)
    (productList : List (String × Option String)) (bs : Nat)
    (snaps : List Int) (productStats storeStats : List StatRow)
    (variants : List Variant) (inventory : List InvUpdate)
    (reviews : List Review) (hbs : 0 < bs)
    (hvid : ∀ v ∈ variants, v.id = v.productId) :
    exportRowsMlp cfg productList bs snaps productStats storeStats variants
      inventory reviews
      = (productList.map (fun ps => buildProductFeaturesMLP cfg ps.1 ps.2
          snaps (mlpDateIndex cfg snaps) productStats storeStats variants
          inventory reviews)).flatten := by
  unfold exportRowsMlp
  rw [List.map_congr_left (fun batch _ => processBatch_eq cfg batch snaps
    productStats storeStats variants inventory reviews hvid)]
  rw [flatten_map_flatten, chunksOf_flatten bs hbs]

/-- C6 (amended): the MLP export's final row list equals the per-product
concatenation in product-list order, for every positive batch size — the
output is deterministic and independent of how the product list is sliced
into batches and of batch completion order (results are collected by
iterating the futures in submission order, awaiting each), but it is NOT
sorted by (entity key, snapshot date): no sort is applied on the MLP path,
so rows keep product-list order.  (The inventory-table hypothesis `hvid`
holds for this exporter by construction: `variants['id'] = productId`.) -/
theorem exportRows_batch_invariant (cfg : FeatureConfig)
    (productList : List (String × Option String)) (bs1 bs2 : Nat)
    (snaps : List Int) (productStats storeStats : List StatRow)
    (variants : List Variant) (inventory : List InvUpdate)
    (reviews : List Review) (h1 : 0 < bs1) (h2 : 0 < bs2)
    (hvid : ∀ v ∈ variants, v.id = v.productId) :
    exportRowsMlp cfg productList bs1 snaps productStats storeStats variants
      inventory reviews
      = (productList.map (fun ps => buildProductFeaturesMLP cfg ps.1 ps.2
          snaps (mlpDateIndex cfg snaps) productStats storeStats variants
          inventory reviews)).flatten
    ∧ exportRowsMlp cfg productList bs1 snaps productStats storeStats
        variants inventory reviews
      = exportRowsMlp cfg productList bs2 snaps productStats storeStats
          variants inventory reviews := by
  have k1 := exportRows_canonical cfg productList bs1 snaps productStats
    storeStats variants inventory reviews h1 hvid
  have k2 := exportRows_canonical cfg productList bs2 snaps productStats
    storeStats variants inventory reviews h2 hvid
  exact ⟨k1, k1.trans k2.symm⟩

/-- Witness for C6 (amended): two products and two different batch sizes
produce identical row lists. -/
theorem exportRows_batch_invariant_witness :
    exportRowsMlp ⟨7, 14, 30, 0⟩ [("B", some "s"), ("A", some "s")] 1 [0]
      [] [] [] [] []
    = exportRowsMlp ⟨7, 14, 30, 0⟩ [("B", some "s"), ("A", some "s")] 2 [0]
      [] [] [] [] [] := by
  exact (exportRows_batch_invariant ⟨7, 14, 30, 0⟩
    [("B", some "s"), ("A", some "s")] 1 2 [0] [] [] [] [] []
    (by decide) (by decide) (by intro v hv; cases hv)).2

/-- C6 counterexample: with product list [("B","s"), ("A","s")] the emitted
MLP rows keep product-list order B, A — not sorted by entity key, since
"A" < "B".  The MLP path of `exportFeatures` applies no sort (only the TFT
path sorts). -/
theorem exportRows_unsorted :
    ((exportRowsMlp ⟨7, 14, 30, 0⟩ [("B", some "s"), ("A", some "s")] 200
      [0] [] [] [] [] []).map (fun row => row.productId)) = ["B", "A"]
    ∧ ("A" : String) < "B"
    ∧ ¬ List.Sorted (fun a b : String => a ≤ b)
        ((exportRowsMlp ⟨7, 14, 30, 0⟩ [("B", some "s"), ("A", some "s")] 200
          [0] [] [] [] [] []).map (fun row => row.productId)) := by
  have hmap : ((exportRowsMlp ⟨7, 14, 30, 0⟩
      [("B", some "s"), ("A", some "s")] 200 [0] [] [] [] [] []).map
        (fun row => row.productId)) = ["B", "A"] := by decide
  refine ⟨hmap, ?_, ?_⟩
  · rw [String.lt_iff_toList_lt]
    decide
  · rw [hmap]
    intro hs
    have hle := (List.pairwise_cons.mp hs).1 "A" (List.mem_cons_self _ _)
    rw [String.le_iff_toList_le] at hle
    exact absurd hle (by decide)

theorem sorted_head_le (s0 : Int) (rest : List Int)
    (hs : (s0 :: rest).Pairwise (fun a b : Int => a ≤ b)) :
    ∀ s ∈ s0 :: rest, s0 ≤ s := by
  intro s hsm
  rcases List.mem_cons.mp hsm with rfl | h
  · exact le_refl s
  · exact (List.pairwise_cons.mp hs).1 s h

theorem sorted_le_getLastD :
    ∀ (l : List Int), ∀ (d : Int), l.Pairwise (fun a b : Int => a ≤ b) →
    ∀ s ∈ l, s ≤ l.getLastD d := by
  intro l
  induction l with
  | nil => intro d _ s hs; cases hs
  | cons a t ih =>
      intro d hsort s hs
      rw [List.getLastD_cons]
      rcases List.mem_cons.mp hs with rfl | hst
      · rcases t with _ | ⟨b, t2⟩
        · exact le_refl s
        · have hb : s ≤ b :=
            (List.pairwise_cons.mp hsort).1 b (List.mem_cons_self _ _)
          have h2 := ih s (List.pairwise_cons.mp hsort).2 b
            (List.mem_cons_self _ _)
          exact le_trans hb h2
      · exact ih a (List.pairwise_cons.mp hsort).2 s hst

/-- With nonnegative padding, every (ascending) snapshot date lies in the
padded calendar the batch path builds. -/
theorem snaps_mem_mlpDateIndex (cfg : FeatureConfig) (snaps : List Int)
    (hpad : 0 ≤ cfg.paddingDays)
    (hsort : snaps.Pairwise (fun a b : Int => a ≤ b)) :
    ∀ s ∈ snaps, s ∈ mlpDateIndex cfg snaps := by
  cases snaps with
  | nil => intro s hs; cases hs
  | cons s0 rest =>
      intro s hs
      simp only [mlpDateIndex]
      rw [mem_calendarDays]
      constructor
      · have h1 := sorted_head_le s0 rest hsort s hs
        omega
      · exact sorted_le_getLastD (s0 :: rest) 0 hsort s hs

theorem buildFeatureRowsVectorized_length (cfg : FeatureConfig)
    (p : String) (sid : Option String) (snaps dateIndex : List Int)
    (prodStats : List StatRow) (storeTs : List (Int × Int))
    (priceStats : ℚ × ℚ × ℚ) (inventoryByDate : List Int)
    (reviewsPairs : List (Int × ℚ)) (lastRestock : Option Int) :
    (buildFeatureRowsVectorized cfg p sid snaps dateIndex prodStats storeTs
      priceStats inventoryByDate reviewsPairs lastRestock).length
      = (snaps.filter (fun s => s ∈ dateIndex)).length := by
  simp only [buildFeatureRowsVectorized]
  rw [List.length_map]

theorem buildProduct_length (cfg : FeatureConfig) (p : String)
    (sid : Option String) (snaps dateIndex : List Int)
    (prodStatsSubset storeStatsSubset : List StatRow)
    (variantsSubset : List Variant) (inventorySubset : List InvUpdate)
    (reviewsSubset : List Review) :
    (buildProductFeaturesMLP cfg p sid snaps dateIndex prodStatsSubset
      storeStatsSubset variantsSubset inventorySubset reviewsSubset).length
      = (snaps.filter (fun s => s ∈ dateIndex)).length := by
  simp only [buildProductFeaturesMLP]
  apply buildFeatureRowsVectorized_length

/-- C8 counterexample: the configuration `paddingDays = 0` violates the
claim's validity requirement (padding < max window 30), yet no
`ConfigurationError` exists anywhere in the source: the pipeline runs to
completion and emits a feature row. -/
theorem exportRows_invalid_config :
    (⟨7, 14, 30, 0⟩ : FeatureConfig).paddingDays < 30
    ∧ (exportRowsMlp ⟨7, 14, 30, 0⟩ [("A", some "s")] 1 [0]
        [] [] [] [] []).length = 1
    ∧ exportRowsMlp ⟨7, 14, 30, 0⟩ [("A", some "s")] 1 [0]
        [] [] [] [] [] ≠ [] := by
  refine ⟨by decide, by decide, by decide⟩

/-- C8 (amended): neither `FeatureConfig` nor the export driver validates
the configuration — there is no `ConfigurationError`: for every
configuration with nonnegative padding (including every padding smaller
than the maximum window, which the claim calls invalid) and every window
sizes, batch processing proceeds and emits exactly one row per (product,
snapshot date). -/
theorem exportRows_row_count (cfg : FeatureConfig)
    (productList : List (String × Option String)) (bs : Nat)
    (snaps : List Int) (productStats storeStats : List StatRow)
    (variants : List Variant) (inventory : List InvUpdate)
    (reviews : List Review) (hbs : 0 < bs) (hpad : 0 ≤ cfg.paddingDays)
    (hsort : snaps.Pairwise (fun a b : Int => a ≤ b))
    (hvid : ∀ v ∈ variants, v.id = v.productId) :
    (exportRowsMlp cfg productList bs snaps productStats storeStats variants
      inventory reviews).length = productList.length * snaps.length := by
  rw [exportRows_canonical cfg productList bs snaps productStats storeStats
    variants inventory reviews hbs hvid]
  have hflt : snaps.filter (fun s => s ∈ mlpDateIndex cfg snaps) = snaps := by
    apply List.filter_eq_self.mpr
    intro s hs
    simpa using snaps_mem_mlpDateIndex cfg snaps hpad hsort s hs
  induction productList with
  | nil => simp
  | cons a t ih =>
      simp only [List.map_cons, List.flatten_cons, List.length_append, ih]
      rw [buildProduct_length, hflt, List.length_cons]
      ring

/-- Witness for C8 (amended): with the invalid configuration
`paddingDays = 0 < 30`, one product and two snapshot dates, two rows are
emitted — no failure occurs. -/
theorem exportRows_row_count_witness :
    (exportRowsMlp ⟨7, 14, 30, 0⟩ [("A", some "s")] 1 [0, 1]
      [] [] [] [] []).length = 2 := by
  have h := exportRows_row_count ⟨7, 14, 30, 0⟩ [("A", some "s")] 1 [0, 1]
    [] [] [] [] [] (by decide) (by decide) (by decide)
    (by intro v hv; cases hv)
  simpa using h

theorem getD_map_of_lt {α β : Type} (f : α → β) (l : List α) (k : Nat)
    (hk : k < l.length) (da : α) (db : β) :
    (l.map f).getD k db = f (l.getD k da) := by
  rw [List.getD_eq_getElem?_getD, List.getElem?_map,
    List.getElem?_eq_getElem hk, List.getD_eq_getElem?_getD,
    List.getElem?_eq_getElem hk]
  rfl

theorem storeSeries_getD_indexOf (ss : List StatRow) (dateIndex : List Int)
    (snap : Int) (hmem : snap ∈ dateIndex) :
    (storeSeries ss dateIndex).getD (dateIndex.indexOf snap) (0, 0)
      = (((ss.find? (fun r => r.date = snap)).map (fun r => r.views)).getD 0,
         ((ss.find? (fun r => r.date = snap)).map
           (fun r => r.purchases)).getD 0) := by
  unfold storeSeries
  have hlt : dateIndex.indexOf snap < dateIndex.length :=
    List.indexOf_lt_length.mpr hmem
  rw [getD_map_of_lt _ _ _ hlt 0 (0, 0)]
  have hsnap : dateIndex.getD (dateIndex.indexOf snap) 0 = snap := by
    rw [List.getD_eq_getElem?_getD, List.getElem?_eq_getElem hlt]
    simp [List.getElem_indexOf]
  rw [hsnap]

theorem vectorized_storeViews (cfg : FeatureConfig) (p : String)
    (sid : Option String) (snaps dateIndex : List Int)
    (prodStats : List StatRow) (storeTs : List (Int × Int))
    (priceStats : ℚ × ℚ × ℚ) (inventoryByDate : List Int)
    (reviewsPairs : List (Int × ℚ)) (lastRestock : Option Int) (j : Nat)
    (hj : j < (snaps.filter (fun s => s ∈ dateIndex)).length) :
    ((buildFeatureRowsVectorized cfg p sid snaps dateIndex prodStats storeTs
      priceStats inventoryByDate reviewsPairs lastRestock).getD j
        defaultFeatureRow).storeViews7d
      = (if storeTs.isEmpty then 0
         else (storeTs.getD (dateIndex.indexOf
           ((snaps.filter (fun s => s ∈ dateIndex)).getD j 0)) (0, 0)).1) := by
  simp only [buildFeatureRowsVectorized]
  rw [getD_map_of_lt _ _ j hj 0 defaultFeatureRow]

theorem vectorized_storePurchases (cfg : FeatureConfig) (p : String)
    (sid : Option String) (snaps dateIndex : List Int)
    (prodStats : List StatRow) (storeTs : List (Int × Int))
    (priceStats : ℚ × ℚ × ℚ) (inventoryByDate : List Int)
    (reviewsPairs : List (Int × ℚ)) (lastRestock : Option Int) (j : Nat)
    (hj : j < (snaps.filter (fun s => s ∈ dateIndex)).length) :
    ((buildFeatureRowsVectorized cfg p sid snaps dateIndex prodStats storeTs
      priceStats inventoryByDate reviewsPairs lastRestock).getD j
        defaultFeatureRow).storePurchases7d
      = (if storeTs.isEmpty then 0
         else (storeTs.getD (dateIndex.indexOf
           ((snaps.filter (fun s => s ∈ dateIndex)).getD j 0)) (0, 0)).2) := by
  simp only [buildFeatureRowsVectorized]
  rw [getD_map_of_lt _ _ j hj 0 defaultFeatureRow]

/-- C10: in every emitted row, the fields named `storeViews7d` and
`storePurchases7d` hold the store's single-day views/purchases at the
snapshot date itself — the dense store series value at the snapshot's
calendar position (`storeTs.iloc[dateIndex]`), not a 7-day trailing sum —
and both are 0 when the entity has no store id (empty store series). -/
theorem storeFields_single_day (cfg : FeatureConfig) (p : String)
    (sid : Option String) (snaps dateIndex : List Int)
    (prodStatsSubset storeStatsSubset : List StatRow)
    (variantsSubset : List Variant) (inventorySubset : List InvUpdate)
    (reviewsSubset : List Review) (j : Nat)
    (hj : j < (buildProductFeaturesMLP cfg p sid snaps dateIndex
        prodStatsSubset storeStatsSubset variantsSubset inventorySubset
        reviewsSubset).length) :
    ((buildProductFeaturesMLP cfg p sid snaps dateIndex prodStatsSubset
        storeStatsSubset variantsSubset inventorySubset reviewsSubset).getD j
          defaultFeatureRow).storeViews7d
      = (match sid with
         | none => 0
         | some st =>
             (((storeStatsSubset.filter (fun r => r.storeId = st)).find?
               (fun r => r.date = (snaps.filter
                 (fun s => s ∈ dateIndex)).getD j 0)).map
                   (fun r => r.views)).getD 0)
    ∧ ((buildProductFeaturesMLP cfg p sid snaps dateIndex prodStatsSubset
        storeStatsSubset variantsSubset inventorySubset reviewsSubset).getD j
          defaultFeatureRow).storePurchases7d
      = (match sid with
         | none => 0
         | some st =>
             (((storeStatsSubset.filter (fun r => r.storeId = st)).find?
               (fun r => r.date = (snaps.filter
                 (fun s => s ∈ dateIndex)).getD j 0)).map
                   (fun r => r.purchases)).getD 0) := by
  have hj' : j < (snaps.filter (fun s => s ∈ dateIndex)).length := by
    rw [← buildProduct_length cfg p sid snaps dateIndex prodStatsSubset
      storeStatsSubset variantsSubset inventorySubset reviewsSubset]
    exact hj
  have hsnapmem : (snaps.filter (fun s => s ∈ dateIndex)).getD j 0
      ∈ dateIndex := by
    have hm : (snaps.filter (fun s => s ∈ dateIndex)).getD j 0
        ∈ snaps.filter (fun s => s ∈ dateIndex) := by
      rw [List.getD_eq_getElem?_getD, List.getElem?_eq_getElem hj']
      exact List.getElem_mem hj'
    simpa using List.of_mem_filter hm
  cases sid with
  | none =>
      constructor
      · simp only [buildProductFeaturesMLP]
        rw [vectorized_storeViews _ _ _ _ _ _ _ _ _ _ _ j hj']
        rfl
      · simp only [buildProductFeaturesMLP]
        rw [vectorized_storePurchases _ _ _ _ _ _ _ _ _ _ _ j hj']
        rfl
  | some st =>
      have hne : ¬ ((storeSeries (storeStatsSubset.filter
          (fun r => r.storeId = st)) dateIndex).isEmpty = true) := by
        rw [List.isEmpty_iff]
        intro hemp
        unfold storeSeries at hemp
        rw [List.map_eq_nil_iff] at hemp
        rw [hemp] at hsnapmem
        cases hsnapmem
      constructor
      · simp only [buildProductFeaturesMLP]
        rw [vectorized_storeViews _ _ _ _ _ _ _ _ _ _ _ j hj',
          if_neg hne, storeSeries_getD_indexOf _ _ _ hsnapmem]
      · simp only [buildProductFeaturesMLP]
        rw [vectorized_storePurchases _ _ _ _ _ _ _ _ _ _ _ j hj',
          if_neg hne, storeSeries_getD_indexOf _ _ _ hsnapmem]

/-- Witness for C10: a store with views 1 and purchases 2 on each of days
0–6; the snapshot-day row holds `storeViews7d = 1` (the single-day value)
while the 7-day trailing sum of that series is 7 — the field is not a
7-day sum. -/
theorem storeFields_single_day_witness :
    ((buildProductFeaturesMLP ⟨7, 14, 30, 0⟩ "p" (some "s") [6]
        (calendarDays 0 6) []
        [⟨"x", "s", 0, 1, 2, 0, 0⟩, ⟨"x", "s", 1, 1, 2, 0, 0⟩,
         ⟨"x", "s", 2, 1, 2, 0, 0⟩, ⟨"x", "s", 3, 1, 2, 0, 0⟩,
         ⟨"x", "s", 4, 1, 2, 0, 0⟩, ⟨"x", "s", 5, 1, 2, 0, 0⟩,
         ⟨"x", "s", 6, 1, 2, 0, 0⟩] [] [] []).getD 0
          defaultFeatureRow).storeViews7d = 1
    ∧ trailingSum (List.replicate 7 (1 : Int)) 7 6 = 7
    ∧ (1 : Int) ≠ 7 := by
  have h := storeFields_single_day ⟨7, 14, 30, 0⟩ "p" (some "s") [6]
    (calendarDays 0 6) []
    [⟨"x", "s", 0, 1, 2, 0, 0⟩, ⟨"x", "s", 1, 1, 2, 0, 0⟩,
     ⟨"x", "s", 2, 1, 2, 0, 0⟩, ⟨"x", "s", 3, 1, 2, 0, 0⟩,
     ⟨"x", "s", 4, 1, 2, 0, 0⟩, ⟨"x", "s", 5, 1, 2, 0, 0⟩,
     ⟨"x", "s", 6, 1, 2, 0, 0⟩] [] [] [] 0 (by decide)
  refine ⟨?_, by decide, by decide⟩
  rw [h.1]
  decide

end Predictor
